import Mathlib

/-!
# Verification of `pabotscope.py`

A shallow embedding of the core pipeline of `pabotscope.py`:

* `downsample_to_width` (source lines 10–34), split into its index-selection
  step (`select_data`, lines 26–30) and value-rescaling step (`rescale`,
  lines 32–34);
* `build_timeline` (lines 158–181);
* the concurrency sampling loop of `main` (lines 190–205), as
  `grid_points`, `active_at` and `sample_counts`;
* the slowest-test ranking of `main` (line 207), as `longest_tests`.

Modelling conventions: Python `float` arithmetic and `datetime`/`timedelta`
values are modelled exactly over `ℚ` (timestamps as rational seconds);
Python `dict`s are modelled as association lists in insertion order with
`List.lookup`; Python's stable `sort`/`sorted` is modelled by
`List.mergeSort`, which has the same left-biased stability; a Python
exception (`ValueError` from `max()` on an empty sequence or from
`np.linspace` with a negative sample count) is modelled by `Option.none`.
-/

/-- Python's `int(x)` conversion: truncation toward zero. -/
def pytrunc (q : ℚ) : ℤ := if 0 ≤ q then ⌊q⌋ else ⌈q⌉

/-- `np.linspace(0, stop, num, dtype=int)`: `num` evenly spaced samples from
`0` to `stop`, endpoints included (numpy sets the final sample to `stop`
exactly; with `num = 1` only the left endpoint `0` is produced), each sample
cast to `int` by truncation toward zero. -/
def pylinspace_int (stop : ℤ) (num : ℕ) : List ℤ :=
  if num = 0 then []
  else if num = 1 then [0]
  else (List.range num).map fun i =>
    if i = num - 1 then stop
    else pytrunc ((i : ℚ) * (stop : ℚ) / ((num : ℚ) - 1))

/-- Lines 26–30 of `downsample_to_width`: if the series is longer than
`max_width`, keep only the values at the `np.linspace` indices, else keep the
whole series.  `none` models the `ValueError` that `np.linspace` raises for a
negative sample count (reachable only when `len > max_width`). -/
def select_data (parallel_counts : List ℤ) (max_width : ℤ) : Option (List ℤ) :=
  if (parallel_counts.length : ℤ) > max_width then
    if max_width < 0 then none
    else some ((pylinspace_int ((parallel_counts.length : ℤ) - 1) max_width.toNat).map
      fun i => parallel_counts.getD i.toNat 0)
  else some parallel_counts

/-- Lines 32–34 of `downsample_to_width`: `max_value = max(data) or 1`
(Python's `or` replaces a zero maximum by `1`), then each count becomes
`int((count / max_value) * max_height)`.  `none` models the `ValueError`
raised by `max()` on an empty sequence. -/
def rescale (data : List ℤ) (max_height : ℤ) : Option (List ℤ) :=
  match data.max? with
  | none => none
  | some m =>
    let max_value : ℤ := if m = 0 then 1 else m
    some (data.map fun count : ℤ =>
      pytrunc (((count : ℚ) / (max_value : ℚ)) * (max_height : ℚ)))

/-- `downsample_to_width(parallel_counts, max_height, max_width)`
(lines 10–34): index selection followed by rescaling. -/
def downsample_to_width (parallel_counts : List ℤ) (max_height max_width : ℤ) :
    Option (List ℤ) :=
  (select_data parallel_counts max_width).bind fun data => rescale data max_height

/-- The timeline-record tuple `(time, event_type, test_name)` appended at
lines 178–179: timestamps as rational seconds, the event kind as the literal
Python string (`"start"` or `"end"`), then the test name. -/
abbrev TimelineRecord := ℚ × String × String

/-- `ends.get(test, start_time + timedelta(seconds=durations.get(test, 0)))`
(lines 175–177, identically at lines 199–201). -/
def end_of (ends durations : List (String × ℚ)) (test : String) (s_time : ℚ) : ℚ :=
  (ends.lookup test).getD (s_time + (durations.lookup test).getD 0)

/-- Python's `<` on the `(time, event_type, test_name)` tuples: lexicographic
on the components, with strings compared lexicographically by code point. -/
def recLt (a b : TimelineRecord) : Bool :=
  a.1 < b.1 ∨ (a.1 = b.1 ∧ (a.2.1 < b.2.1 ∨ (a.2.1 = b.2.1 ∧ a.2.2 < b.2.2)))

/-- The order used by `timeline.sort()` (line 180): Python's sort places `a`
no later than `b` exactly when `¬ (b < a)` under tuple comparison. -/
def recLe (a b : TimelineRecord) : Bool := ! recLt b a

/-- `build_timeline(starts, ends, durations)` (lines 158–181): two records per
test of `starts` (a `"start"` record at its start time, an `"end"` record at
its real or synthesized end time), then `timeline.sort()`, modelled by the
stable `mergeSort` under the tuple order. -/
def build_timeline (starts ends durations : List (String × ℚ)) : List TimelineRecord :=
  (starts.flatMap fun p =>
    [(p.2, "start", p.1), (end_of ends durations p.1 p.2, "end", p.1)]).mergeSort recLe

/-- The 1-second sampling grid of `main` (lines 191–196, 205): cursor values
`t0, t0 + 1, t0 + 2, ...` for as long as the cursor stays `≤ t1`. -/
def grid_points (t0 t1 : ℚ) : List ℚ :=
  (List.range (⌊t1 - t0⌋ + 1).toNat).map fun k => t0 + (k : ℚ)

/-- The inner counting loop of `main` (lines 197–203): walk `starts` and
count the tests with `s_time <= time_cursor < e_time`. -/
def active_at (starts ends durations : List (String × ℚ)) (t : ℚ) : ℕ :=
  starts.foldl
    (fun active p =>
      if p.2 ≤ t ∧ t < end_of ends durations p.1 p.2 then active + 1 else active)
    0

/-- The concurrency sampling loop of `main` (lines 190–205): if the timeline
is nonempty, sample `active_at` at every grid point from the first to the
last timeline timestamp, collecting `(time_cursor, active)` pairs. -/
def sample_counts (starts ends durations : List (String × ℚ)) : List (ℚ × ℕ) :=
  match build_timeline starts ends durations with
  | [] => []
  | rec :: rest =>
    (grid_points rec.1 (((rec :: rest).getLast (List.cons_ne_nil rec rest)).1)).map
      fun t => (t, active_at starts ends durations t)

/-- `sorted(durations.items(), key=lambda x: -x[1])[:10]` (line 207): the
stable sort ascending by negated duration, i.e. `mergeSort` under
`b.2 ≤ a.2`, keeping the first ten entries. -/
def longest_tests (durations : List (String × ℚ)) : List (String × ℚ) :=
  (durations.mergeSort fun a b => decide (b.2 ≤ a.2)).take 10

lemma end_lt_start_chars : (['e', 'n', 'd'] : List Char) < ['s', 't', 'a', 'r', 't'] := by
  decide

lemma not_start_le_end_chars : ¬ ((['s', 't', 'a', 'r', 't'] : List Char) ≤ ['e', 'n', 'd']) := by
  decide

lemma end_le_start_chars : (['e', 'n', 'd'] : List Char) ≤ ['s', 't', 'a', 'r', 't'] := by
  decide

lemma not_start_lt_end_chars : ¬ ((['s', 't', 'a', 'r', 't'] : List Char) < ['e', 'n', 'd']) := by
  decide

/-! ## Helper lemmas -/

lemma pytrunc_intCast (z : ℤ) : pytrunc (z : ℚ) = z := by
  unfold pytrunc; split <;> simp

lemma pytrunc_eq_floor {q : ℚ} (h : 0 ≤ q) : pytrunc q = ⌊q⌋ := if_pos h

lemma pylinspace_int_length (stop : ℤ) (num : ℕ) :
    (pylinspace_int stop num).length = num := by
  unfold pylinspace_int
  split
  · simp [*]
  · split
    · simp [*]
    · simp

lemma max?_exists_of_ne_nil {l : List ℤ} (h : l ≠ []) : ∃ m, l.max? = some m := by
  cases hm : l.max? with
  | none => exact absurd (List.max?_eq_none_iff.mp hm) h
  | some m => exact ⟨m, rfl⟩

lemma le_of_max?_eq {l : List ℤ} {m : ℤ} (hm : l.max? = some m) :
    ∀ b ∈ l, b ≤ m :=
  (List.max?_le_iff (fun _ _ _ => max_le_iff) hm).mp le_rfl

lemma max?_mem_int {l : List ℤ} {m : ℤ} (hm : l.max? = some m) : m ∈ l :=
  List.max?_mem (fun _ _ => max_choice _ _) hm

/-! ## Claim theorems: downsampler -/

/-- C9 (confirmed): on the empty series the downsampler does not return a
result: either `np.linspace` (for negative `max_width`) or `max([])` raises,
modelled by `none`, rather than returning the empty sequence. -/
theorem c9_empty_series_errors (max_height max_width : ℤ) :
    downsample_to_width [] max_height max_width = none := by
  unfold downsample_to_width select_data rescale
  by_cases h : ((List.length ([] : List ℤ) : ℤ) > max_width)
  · simp only [if_pos h]
    have : max_width < 0 := by simpa using h
    simp [this]
  · simp only [if_neg h]
    simp [List.max?]

/-- C5 (corrected): for every *nonempty* series and `maxWidth ≥ 1`, the
downsampler returns a series of length exactly `min(len(series), maxWidth)`,
and when `len(series) ≤ maxWidth` the index-selection step passes the series
through unchanged.  (The unrestricted claim fails: see the counterexample
with `maxWidth = 0`, where `max()` raises on an empty selection.) -/
theorem c5_downsample_length (pc : List ℤ) (H W : ℤ)
    (hne : pc ≠ []) (hW : 1 ≤ W) :
    ∃ out, downsample_to_width pc H W = some out ∧
      out.length = min pc.length W.toNat ∧
      ((pc.length : ℤ) ≤ W → select_data pc W = some pc) := by
  by_cases hlen : (pc.length : ℤ) > W
  · have hWneg : ¬ (W < 0) := by omega
    have hdata : select_data pc W
        = some ((pylinspace_int ((pc.length : ℤ) - 1) W.toNat).map
            fun i => pc.getD i.toNat 0) := by
      simp [select_data, hlen, hWneg]
    set data := (pylinspace_int ((pc.length : ℤ) - 1) W.toNat).map
        (fun i => pc.getD i.toNat 0) with hdata_def
    have hdlen : data.length = W.toNat := by
      simp [hdata_def, pylinspace_int_length]
    have hdne : data ≠ [] := by
      intro h0
      rw [h0] at hdlen
      simp at hdlen
      omega
    obtain ⟨m, hm⟩ := max?_exists_of_ne_nil hdne
    refine ⟨data.map fun count : ℤ =>
        pytrunc ((count : ℚ) / ((if m = 0 then (1 : ℤ) else m) : ℚ) * (H : ℚ)), ?_, ?_, ?_⟩
    · simp [downsample_to_width, hdata, rescale, hm]
    · rw [List.length_map, hdlen]; omega
    · intro hc; omega
  · have hsel : select_data pc W = some pc := by simp [select_data, hlen]
    obtain ⟨m, hm⟩ := max?_exists_of_ne_nil hne
    refine ⟨pc.map fun count : ℤ =>
        pytrunc ((count : ℚ) / ((if m = 0 then (1 : ℤ) else m) : ℚ) * (H : ℚ)), ?_, ?_,
        fun _ => hsel⟩
    · simp [downsample_to_width, hsel, rescale, hm]
    · rw [List.length_map]; omega

/-- Witness for C5 at the series `[3, 4]` with `maxHeight = 10`,
`maxWidth = 2`. -/
theorem c5_downsample_length_witness :
    ∃ out, downsample_to_width [3, 4] 10 2 = some out ∧
      out.length = min ([3, 4] : List ℤ).length (2 : ℤ).toNat ∧
      ((([3, 4] : List ℤ).length : ℤ) ≤ 2 → select_data [3, 4] 2 = some [3, 4]) :=
  c5_downsample_length [3, 4] 10 2 (by simp) (by norm_num)

/-- C6 (corrected): for a nonempty selected-value sequence of nonnegative
values and `maxHeight ≥ 0`, with maximum `m` treated as `1` when `m = 0`,
every output value of the rescaling step equals `⌊value / m * maxHeight⌋`,
all outputs lie in `[0, maxHeight]`, and — when the maximum `m` is positive —
every position holding the maximum maps to exactly `maxHeight`.  (The claim's
unconditional "maximum maps to `maxHeight`" fails when `m = 0`: see the
counterexample.) -/
theorem c6_rescale_floor (data : List ℤ) (H : ℤ)
    (hne : data ≠ []) (hnn : ∀ v ∈ data, 0 ≤ v) (hH : 0 ≤ H) :
    ∃ m : ℤ, data.max? = some m ∧
      rescale data H = some (data.map fun v : ℤ =>
        ⌊(v : ℚ) / (if m = 0 then (1 : ℚ) else (m : ℚ)) * (H : ℚ)⌋) ∧
      (∀ y ∈ (data.map fun v : ℤ =>
          ⌊(v : ℚ) / (if m = 0 then (1 : ℚ) else (m : ℚ)) * (H : ℚ)⌋),
        0 ≤ y ∧ y ≤ H) ∧
      (0 < m → ∀ v ∈ data, v = m →
        ⌊(v : ℚ) / (if m = 0 then (1 : ℚ) else (m : ℚ)) * (H : ℚ)⌋ = H) := by
  obtain ⟨m, hm⟩ := max?_exists_of_ne_nil hne
  have hmax := le_of_max?_eq hm
  have hm0 : 0 ≤ m := hnn m (max?_mem_int hm)
  have hMQ : (0 : ℚ) < (if m = 0 then (1 : ℚ) else (m : ℚ)) := by
    split
    · norm_num
    · rename_i h
      exact_mod_cast lt_of_le_of_ne hm0 (Ne.symm h)
  have hle : ∀ v ∈ data, (v : ℚ) ≤ (if m = 0 then (1 : ℚ) else (m : ℚ)) := by
    intro v hv
    split
    · rename_i h
      have h1 := hmax v hv
      have h2 := hnn v hv
      exact_mod_cast (by omega : v ≤ (1 : ℤ))
    · exact_mod_cast hmax v hv
  have hq_nonneg : ∀ v ∈ data,
      (0 : ℚ) ≤ (v : ℚ) / (if m = 0 then (1 : ℚ) else (m : ℚ)) * (H : ℚ) := by
    intro v hv
    have hv0 : (0 : ℚ) ≤ (v : ℚ) := by exact_mod_cast hnn v hv
    have hH0 : (0 : ℚ) ≤ (H : ℚ) := by exact_mod_cast hH
    exact mul_nonneg (div_nonneg hv0 hMQ.le) hH0
  refine ⟨m, hm, ?_, ?_, ?_⟩
  · simp only [rescale, hm, apply_ite (fun z : ℤ => (z : ℚ)), Int.cast_one]
    refine congrArg some (List.map_congr_left fun v hv => ?_)
    exact pytrunc_eq_floor (hq_nonneg v hv)
  · intro y hy
    obtain ⟨v, hv, rfl⟩ := List.mem_map.mp hy
    refine ⟨Int.floor_nonneg.mpr (hq_nonneg v hv), ?_⟩
    have hq_le : (v : ℚ) / (if m = 0 then (1 : ℚ) else (m : ℚ)) * (H : ℚ) ≤ (H : ℚ) := by
      have h1 : (v : ℚ) / (if m = 0 then (1 : ℚ) else (m : ℚ)) ≤ 1 :=
        (div_le_one hMQ).mpr (hle v hv)
      have hH0 : (0 : ℚ) ≤ (H : ℚ) := by exact_mod_cast hH
      calc (v : ℚ) / (if m = 0 then (1 : ℚ) else (m : ℚ)) * (H : ℚ)
          ≤ 1 * (H : ℚ) := mul_le_mul_of_nonneg_right h1 hH0
        _ = (H : ℚ) := one_mul _
    calc ⌊(v : ℚ) / (if m = 0 then (1 : ℚ) else (m : ℚ)) * (H : ℚ)⌋
        ≤ ⌊(H : ℚ)⌋ := Int.floor_le_floor hq_le
      _ = H := Int.floor_intCast H
  · intro hmpos v _ hvm
    rw [hvm]
    have hmne : m ≠ 0 := by omega
    have hmQ : ((m : ℚ)) ≠ 0 := by exact_mod_cast hmne
    rw [if_neg hmne, div_self hmQ, one_mul, Int.floor_intCast]

/-- Witness for C6 at the selected values `[0, 1, 2]` with `maxHeight = 10`. -/
theorem c6_rescale_floor_witness :
    ∃ m : ℤ, ([0, 1, 2] : List ℤ).max? = some m ∧
      rescale [0, 1, 2] 10 = some (([0, 1, 2] : List ℤ).map fun v : ℤ =>
        ⌊(v : ℚ) / (if m = 0 then (1 : ℚ) else (m : ℚ)) * ((10 : ℤ) : ℚ)⌋) ∧
      (∀ y ∈ (([0, 1, 2] : List ℤ).map fun v : ℤ =>
          ⌊(v : ℚ) / (if m = 0 then (1 : ℚ) else (m : ℚ)) * ((10 : ℤ) : ℚ)⌋),
        0 ≤ y ∧ y ≤ 10) ∧
      (0 < m → ∀ v ∈ ([0, 1, 2] : List ℤ), v = m →
        ⌊(v : ℚ) / (if m = 0 then (1 : ℚ) else (m : ℚ)) * ((10 : ℤ) : ℚ)⌋ = 10) :=
  c6_rescale_floor [0, 1, 2] 10 (by simp) (by decide) (by decide)

/-- C6 counterexample: for the all-zero selected sequence `[0]` with
`maxHeight = 10`, the position holding the maximum value `0` maps to output
`0`, not to `maxHeight = 10` as the unconditional claim would require. -/
theorem c6_counterexample :
    downsample_to_width [0] 10 5 = some [0] ∧ (0 : ℤ) ≠ 10 :=
  ⟨by norm_num [downsample_to_width, select_data, rescale, pytrunc, List.max?],
   by decide⟩

/-- Modelled from the spec for comparison (claim C4): index selection by
linear interpolation across `[0, len-1]` rounded to the NEAREST integer
index, as the spec words it (the code truncates instead). -/
def linspace_round_spec (stop : ℤ) (num : ℕ) : List ℤ :=
  if num = 0 then []
  else if num = 1 then [0]
  else (List.range num).map fun i =>
    if i = num - 1 then stop
    else round ((i : ℚ) * (stop : ℚ) / ((num : ℚ) - 1))

/-- C4 counterexample: for a series of length 5 and `maxWidth = 4`, the code
selects indices `[0, 1, 2, 4]` (truncation), while rounding to the nearest
integer index as claimed would select `[0, 1, 3, 4]`. -/
theorem c4_counterexample :
    pylinspace_int 4 4 = [0, 1, 2, 4] ∧
    linspace_round_spec 4 4 = [0, 1, 3, 4] ∧
    ([0, 1, 2, 4] : List ℤ) ≠ [0, 1, 3, 4] := by
  refine ⟨?_, ?_, by decide⟩
  · norm_num [pylinspace_int, pytrunc, List.range_succ]
  · norm_num [linspace_round_spec, round_eq, List.range_succ]

/-- C4 (corrected): for `len(series) > maxWidth ≥ 2` the downsampler selects
exactly `maxWidth` indices across `[0, len-1]`, inclusive of the first index
`0` and the last index `len-1`, each obtained by linear interpolation
TRUNCATED toward zero (not rounded to nearest), with the index list taken
as-is (duplicates, when they arise, are preserved by the `map`). -/
theorem c4_truncated_indices (s : List ℤ) (W : ℤ)
    (h1 : W < (s.length : ℤ)) (h2 : 2 ≤ W) :
    ∃ I : List ℤ,
      select_data s W = some (I.map fun i => s.getD i.toNat 0) ∧
      I.length = W.toNat ∧
      I.getD 0 0 = 0 ∧
      I.getD (W.toNat - 1) 0 = (s.length : ℤ) - 1 ∧
      ∀ k < W.toNat, I.getD k 0
        = pytrunc ((k : ℚ) * ((s.length : ℚ) - 1) / ((W : ℚ) - 1)) := by
  have hW0 : (0 : ℤ) ≤ W := by omega
  have hWtoNat : ((W.toNat : ℤ)) = W := Int.toNat_of_nonneg hW0
  have hnum2 : 2 ≤ W.toNat := by omega
  have hcastW : ((W.toNat : ℚ)) = (W : ℚ) := by exact_mod_cast congrArg (fun z : ℤ => (z : ℚ)) hWtoNat
  have hQden : ((W.toNat : ℚ)) - 1 = (W : ℚ) - 1 := by rw [hcastW]
  have hstop : (((s.length : ℤ) - 1 : ℤ) : ℚ) = (s.length : ℚ) - 1 := by push_cast; ring
  have hcastk : (((W.toNat - 1 : ℕ)) : ℚ) = (W : ℚ) - 1 := by
    rw [Nat.cast_sub (by omega), hcastW]
    norm_num
  have hden_ne : (W : ℚ) - 1 ≠ 0 := by
    have h2q : (2 : ℚ) ≤ (W : ℚ) := by exact_mod_cast h2
    intro hc
    rw [sub_eq_zero] at hc
    rw [hc] at h2q
    norm_num at h2q
  have hform : ∀ k < W.toNat,
      (pylinspace_int ((s.length : ℤ) - 1) W.toNat).getD k 0
        = pytrunc ((k : ℚ) * ((s.length : ℚ) - 1) / ((W : ℚ) - 1)) := by
    intro k hk
    have hne0 : W.toNat ≠ 0 := by omega
    have hne1 : W.toNat ≠ 1 := by omega
    have hget : (pylinspace_int ((s.length : ℤ) - 1) W.toNat).getD k 0
        = if k = W.toNat - 1 then (s.length : ℤ) - 1
          else pytrunc ((k : ℚ) * ((((s.length : ℤ) - 1 : ℤ)) : ℚ) / ((W.toNat : ℚ) - 1)) := by
      unfold pylinspace_int
      rw [if_neg hne0, if_neg hne1]
      simp [List.getD_eq_getElem?_getD, List.getElem?_map, List.getElem?_range, hk]
    rw [hget]
    by_cases hk1 : k = W.toNat - 1
    · rw [if_pos hk1, hk1]
      simp only [hcastk, hQden, hstop]
      rw [mul_comm, mul_div_assoc, div_self hden_ne, mul_one, ← hstop, pytrunc_intCast]
    · rw [if_neg hk1]
      simp only [hstop, hQden]
  refine ⟨pylinspace_int ((s.length : ℤ) - 1) W.toNat, ?_, pylinspace_int_length _ _, ?_, ?_, hform⟩
  · have hgt : (s.length : ℤ) > W := h1
    have hWneg : ¬ (W < 0) := by omega
    simp [select_data, hgt, hWneg]
  · rw [hform 0 (by omega)]
    norm_num
    unfold pytrunc
    norm_num
  · rw [hform (W.toNat - 1) (by omega), hcastk, mul_comm, mul_div_assoc, div_self hden_ne,
      mul_one, ← hstop, pytrunc_intCast]

/-- Witness for C4 at the series `[5, 6, 7, 8, 9]` with `maxWidth = 3`. -/
theorem c4_truncated_indices_witness :
    ∃ I : List ℤ,
      select_data [5, 6, 7, 8, 9] 3 = some (I.map fun i => ([5, 6, 7, 8, 9] : List ℤ).getD i.toNat 0) ∧
      I.length = (3 : ℤ).toNat ∧
      I.getD 0 0 = 0 ∧
      I.getD ((3 : ℤ).toNat - 1) 0 = (([5, 6, 7, 8, 9] : List ℤ).length : ℤ) - 1 ∧
      ∀ k < (3 : ℤ).toNat, I.getD k 0
        = pytrunc ((k : ℚ) * ((([5, 6, 7, 8, 9] : List ℤ).length : ℚ) - 1) / (((3 : ℤ) : ℚ) - 1)) :=
  c4_truncated_indices [5, 6, 7, 8, 9] 3 (by norm_num) (by norm_num)

/-! ## Claim theorems: timeline and sampler -/

lemma foldl_if_count {α : Type} (P : α → Prop) [DecidablePred P] :
    ∀ (l : List α) (n : ℕ),
      l.foldl (fun acc x => if P x then acc + 1 else acc) n
        = n + l.countP fun x => decide (P x)
  | [], n => by simp
  | x :: xs, n => by
    by_cases h : P x
    · rw [List.foldl_cons, if_pos h, foldl_if_count P xs (n + 1), List.countP_cons]
      simp [h]
      omega
    · rw [List.foldl_cons, if_neg h, foldl_if_count P xs n, List.countP_cons]
      simp [h]

lemma active_at_eq_countP (starts ends durations : List (String × ℚ)) (t : ℚ) :
    active_at starts ends durations t
      = starts.countP fun p => decide (p.2 ≤ t ∧ t < end_of ends durations p.1 p.2) := by
  unfold active_at
  rw [foldl_if_count (fun p : String × ℚ => p.2 ≤ t ∧ t < end_of ends durations p.1 p.2)]
  simp

/-- C2 (confirmed): at every grid point `t` produced by the concurrency
sampler, the recorded active count equals the number of entries of `starts`
whose interval satisfies `start ≤ t < end` — half-open semantics: ends at
exactly `t` do not count, starts at exactly `t` do. -/
theorem c2_half_open_counts (starts ends durations : List (String × ℚ)) (t : ℚ) (c : ℕ)
    (h : (t, c) ∈ sample_counts starts ends durations) :
    c = starts.countP fun p => decide (p.2 ≤ t ∧ t < end_of ends durations p.1 p.2) := by
  unfold sample_counts at h
  cases hb : build_timeline starts ends durations with
  | nil =>
    rw [hb] at h
    simp at h
  | cons rec rest =>
    rw [hb] at h
    simp only [List.mem_map] at h
    obtain ⟨u, _, hme⟩ := h
    injection hme with hA hB
    subst hA
    subst hB
    exact active_at_eq_countP starts ends durations u

/-- Witness for C2, the spec's half-open interval law: a single test with
start `0` and end `2`; the grid point at exactly `2` does not count it and
the grid point at exactly `0` does. -/
theorem c2_half_open_counts_witness :
    (0 : ℕ) = List.countP
      (fun p => decide (p.2 ≤ (2 : ℚ) ∧ (2 : ℚ) < end_of [("A", 2)] [("A", 2)] p.1 p.2))
      [("A", (0 : ℚ))] ∧
    (1 : ℕ) = List.countP
      (fun p => decide (p.2 ≤ (0 : ℚ) ∧ (0 : ℚ) < end_of [("A", 2)] [("A", 2)] p.1 p.2))
      [("A", (0 : ℚ))] :=
  ⟨c2_half_open_counts [("A", 0)] [("A", 2)] [("A", 2)] 2 0
    (by simp [sample_counts, build_timeline, end_of, List.mergeSort, List.merge,
      recLe, recLt, grid_points, active_at, List.range_succ, List.getLast]),
   c2_half_open_counts [("A", 0)] [("A", 2)] [("A", 2)] 0 1
    (by simp [sample_counts, build_timeline, end_of, List.mergeSort, List.merge,
      recLe, recLt, grid_points, active_at, List.range_succ, List.getLast])⟩

/-- C1 (corrected): a started test with no recorded end and no recorded
duration gets synthesized end = start (zero-width interval), and under the
half-open rule it is counted active at NO instant `t` — including the grid
point equal to its start, contrary to the claim's final part. -/
theorem c1_zero_width (ends durations : List (String × ℚ)) (name : String) (s t : ℚ)
    (h1 : ends.lookup name = none) (h2 : durations.lookup name = none) :
    end_of ends durations name s = s ∧
    ¬ (s ≤ t ∧ t < end_of ends durations name s) := by
  have he : end_of ends durations name s = s := by simp [end_of, h1, h2]
  refine ⟨he, ?_⟩
  rw [he]
  rintro ⟨hle, hlt⟩
  exact absurd (lt_of_lt_of_le hlt hle) (lt_irrefl t)

/-- Witness for C1 with an unrelated test `B` recorded in `ends`/`durations`
and the zero-width test `A` queried at its own start instant. -/
theorem c1_zero_width_witness :
    end_of [("B", 5)] [("B", 7)] "A" 0 = 0 ∧
    ¬ ((0 : ℚ) ≤ 0 ∧ (0 : ℚ) < end_of [("B", 5)] [("B", 7)] "A" 0) :=
  c1_zero_width [("B", 5)] [("B", 7)] "A" 0 0 (by simp [List.lookup])
    (by simp [List.lookup])

/-- C1 counterexample: the start-only test `A` at time `0` has synthesized
end `0`, yet the sampler's count at the grid point `0` — exactly its start
instant — is `0`, not a positive contribution as the claim requires. -/
theorem c1_counterexample :
    end_of [] [] "A" 0 = 0 ∧
    active_at [("A", 0)] [] [] 0 = 0 ∧
    sample_counts [("A", 0)] [] [] = [(0, 0)] := by
  refine ⟨by simp [end_of], by simp [active_at, end_of], ?_⟩
  simp [sample_counts, build_timeline, end_of, List.mergeSort, List.merge,
    recLe, recLt, end_lt_start_chars, not_start_le_end_chars, end_le_start_chars,
    not_start_lt_end_chars, grid_points, active_at, List.range_succ, List.getLast]

/-- C7 (confirmed): every record emitted by the timeline builder belongs to a
test present in `starts`; a test appearing only in `ends`/`durations`
produces no record. -/
theorem c7_only_started_tests (starts ends durations : List (String × ℚ))
    (r : TimelineRecord) (h : r ∈ build_timeline starts ends durations) :
    ∃ p ∈ starts, p.1 = r.2.2 := by
  unfold build_timeline at h
  rw [List.mem_mergeSort, List.mem_flatMap] at h
  obtain ⟨p, hp, hr⟩ := h
  refine ⟨p, hp, ?_⟩
  simp only [List.mem_cons, List.mem_singleton, List.not_mem_nil, or_false] at hr
  rcases hr with rfl | rfl <;> rfl

/-- Witness for C7: the start record of test `A` (which also appears only as
`A` in `starts`, while `B` appears only in `ends`/`durations`). -/
theorem c7_only_started_tests_witness :
    ∃ p ∈ [("A", (0 : ℚ))], p.1 = (((0 : ℚ), "start", "A") : TimelineRecord).2.2 :=
  c7_only_started_tests [("A", 0)] [("B", 5)] [("B", 7)] ((0 : ℚ), "start", "A")
    (by simp [build_timeline, end_of, List.mergeSort, List.merge, recLe, recLt,
      end_lt_start_chars, not_start_le_end_chars, end_le_start_chars,
      not_start_lt_end_chars, List.lookup])

/-! ## Claim theorems: timeline ordering -/

lemma recLe_iff_le (a b : TimelineRecord) :
    recLe a b = true ↔
      (a.1 < b.1 ∨ (a.1 = b.1 ∧ (a.2.1 < b.2.1 ∨ (a.2.1 = b.2.1 ∧ a.2.2 ≤ b.2.2)))) := by
  have hiff : recLe a b = true ↔
      ¬ (b.1 < a.1 ∨ (b.1 = a.1 ∧ (b.2.1 < a.2.1 ∨ (b.2.1 = a.2.1 ∧ b.2.2 < a.2.2)))) := by
    simp only [recLe, recLt, Bool.not_eq_true', decide_eq_false_iff_not]
  rw [hiff]
  constructor
  · intro h
    rcases lt_trichotomy a.1 b.1 with h1 | h1 | h1
    · exact Or.inl h1
    · refine Or.inr ⟨h1, ?_⟩
      rcases lt_trichotomy a.2.1 b.2.1 with h2 | h2 | h2
      · exact Or.inl h2
      · refine Or.inr ⟨h2, ?_⟩
        by_contra hc
        push_neg at hc
        exact h (Or.inr ⟨h1.symm, Or.inr ⟨h2.symm, hc⟩⟩)
      · exact absurd (Or.inr ⟨h1.symm, Or.inl h2⟩) h
    · exact absurd (Or.inl h1) h
  · intro h hc
    rcases h with h1 | ⟨h1, h2⟩
    · rcases hc with hc1 | ⟨hc1, -⟩
      · exact absurd (lt_trans h1 hc1) (lt_irrefl _)
      · exact absurd h1 (not_lt.mpr (le_of_eq hc1))
    · rcases hc with hc1 | ⟨hc1, hc2⟩
      · exact absurd hc1 (not_lt.mpr (le_of_eq h1))
      · rcases h2 with h2 | ⟨h2, h3⟩
        · rcases hc2 with hc2 | ⟨hc2, -⟩
          · exact absurd (lt_trans h2 hc2) (lt_irrefl _)
          · exact absurd h2 (not_lt.mpr (le_of_eq hc2))
        · rcases hc2 with hc2 | ⟨hc2, hc3⟩
          · exact absurd hc2 (not_lt.mpr (le_of_eq h2))
          · exact absurd hc3 (not_lt.mpr h3)

lemma recLe_total (a b : TimelineRecord) : recLe a b || recLe b a := by
  rw [Bool.or_eq_true, recLe_iff_le, recLe_iff_le]
  rcases lt_trichotomy a.1 b.1 with h | h | h
  · exact Or.inl (Or.inl h)
  · rcases lt_trichotomy a.2.1 b.2.1 with h2 | h2 | h2
    · exact Or.inl (Or.inr ⟨h, Or.inl h2⟩)
    · rcases le_total a.2.2 b.2.2 with h3 | h3
      · exact Or.inl (Or.inr ⟨h, Or.inr ⟨h2, h3⟩⟩)
      · exact Or.inr (Or.inr ⟨h.symm, Or.inr ⟨h2.symm, h3⟩⟩)
    · exact Or.inr (Or.inr ⟨h.symm, Or.inl h2⟩)
  · exact Or.inr (Or.inl h)

lemma recLe_trans (a b c : TimelineRecord)
    (hab : recLe a b) (hbc : recLe b c) : recLe a c := by
  rw [recLe_iff_le] at hab hbc ⊢
  rcases hab with h1 | ⟨h1, h2⟩
  · rcases hbc with g1 | ⟨g1, -⟩
    · exact Or.inl (lt_trans h1 g1)
    · exact Or.inl (lt_of_lt_of_le h1 (le_of_eq g1))
  · rcases hbc with g1 | ⟨g1, g2⟩
    · exact Or.inl (lt_of_le_of_lt (le_of_eq h1) g1)
    · refine Or.inr ⟨h1.trans g1, ?_⟩
      rcases h2 with h2 | ⟨h2, h3⟩
      · rcases g2 with g2 | ⟨g2, -⟩
        · exact Or.inl (lt_trans h2 g2)
        · exact Or.inl (lt_of_lt_of_le h2 (le_of_eq g2))
      · rcases g2 with g2 | ⟨g2, g3⟩
        · exact Or.inl (lt_of_le_of_lt (le_of_eq h2) g2)
        · exact Or.inr ⟨h2.trans g2, le_trans h3 g3⟩

/-- C3 counterexample: for a single zero-width test `A`, the records are
appended in the order start-then-end, yet `timeline.sort()` outputs the end
record first at the tied timestamp (Python compares the whole tuples, and
`"end" < "start"` as strings) — not the stable insertion order. -/
theorem c3_counterexample :
    build_timeline [("A", 0)] [] [] = [(0, "end", "A"), (0, "start", "A")] ∧
    [((0 : ℚ), "end", "A"), ((0 : ℚ), "start", "A")]
      ≠ [((0 : ℚ), "start", "A"), ((0 : ℚ), "end", "A")] := by
  constructor
  · simp [build_timeline, end_of, List.mergeSort, List.merge, recLe, recLt,
      end_lt_start_chars, not_start_le_end_chars, end_le_start_chars,
      not_start_lt_end_chars]
  · simp

/-- C3 (corrected): the timeline is a permutation of the appended records and
is sorted ascending under Python's full tuple comparison: by timestamp first,
and at equal timestamps by the event-kind string (`"end" < "start"`) and then
the test name — not by stable insertion order. -/
theorem c3_timeline_sorted (starts ends durations : List (String × ℚ)) :
    (build_timeline starts ends durations).Pairwise
      (fun a b : TimelineRecord =>
        a.1 < b.1 ∨ (a.1 = b.1 ∧ (a.2.1 < b.2.1 ∨ (a.2.1 = b.2.1 ∧ a.2.2 ≤ b.2.2)))) ∧
    (build_timeline starts ends durations).Perm
      (starts.flatMap fun p =>
        [(p.2, "start", p.1), (end_of ends durations p.1 p.2, "end", p.1)]) := by
  constructor
  · have hs := List.sorted_mergeSort recLe_trans recLe_total
      (starts.flatMap fun p =>
        [(p.2, "start", p.1), (end_of ends durations p.1 p.2, "end", p.1)])
    exact hs.imp fun {a b} h => (recLe_iff_le a b).mp h
  · exact List.mergeSort_perm _ recLe

/-! ## Claim theorems: ranking and timeline shape -/

lemma durLe_trans (a b c : String × ℚ)
    (hab : (fun x y : String × ℚ => decide (y.2 ≤ x.2)) a b)
    (hbc : (fun x y : String × ℚ => decide (y.2 ≤ x.2)) b c) :
    (fun x y : String × ℚ => decide (y.2 ≤ x.2)) a c := by
  simp only [decide_eq_true_eq] at *
  exact le_trans hbc hab

lemma durLe_total (a b : String × ℚ) :
    (fun x y : String × ℚ => decide (y.2 ≤ x.2)) a b
      || (fun x y : String × ℚ => decide (y.2 ≤ x.2)) b a := by
  simp only [Bool.or_eq_true, decide_eq_true_eq]
  exact (le_total b.2 a.2).imp id id

lemma mergeSort_filter_stable (l : List (String × ℚ)) (q : ℚ) :
    (l.mergeSort fun a b => decide (b.2 ≤ a.2)).filter (fun p => decide (p.2 = q))
      = l.filter fun p => decide (p.2 = q) := by
  have hsub : List.Sublist (l.filter fun p => decide (p.2 = q)) l := List.filter_sublist l
  have hpair : (l.filter fun p => decide (p.2 = q)).Pairwise
      (fun a b : String × ℚ => (fun x y : String × ℚ => decide (y.2 ≤ x.2)) a b = true) := by
    refine List.pairwise_of_forall_mem_list fun a ha b hb => ?_
    have ha2 : a.2 = q := by simpa using (List.mem_filter.mp ha).2
    have hb2 : b.2 = q := by simpa using (List.mem_filter.mp hb).2
    simp [ha2, hb2]
  have h1 := List.sublist_mergeSort durLe_trans durLe_total hpair hsub
  have h2 : List.Sublist
      ((l.filter fun p => decide (p.2 = q)).filter fun p => decide (p.2 = q))
      ((l.mergeSort fun a b => decide (b.2 ≤ a.2)).filter fun p => decide (p.2 = q)) :=
    h1.filter _
  rw [List.filter_eq_self.mpr fun a ha => (List.mem_filter.mp ha).2] at h2
  have hperm : List.Perm
      ((l.mergeSort fun a b => decide (b.2 ≤ a.2)).filter fun p => decide (p.2 = q))
      (l.filter fun p => decide (p.2 = q)) :=
    (List.mergeSort_perm l _).filter _
  exact ((h2.eq_of_length hperm.length_eq.symm)).symm

/-- C8 (confirmed): the ranked-duration list is sorted descending by duration;
sorting is stable, so entries with equal durations keep their original
insertion order (the filter at any duration value is unchanged); and at the
spec's example `{A: 5.0, B: 9.2, C: 1.0}` the top-2 ranked list is
`[(B, 9.2), (A, 5.0)]`. -/
theorem c8_ranking (durations : List (String × ℚ)) :
    (longest_tests durations).Pairwise (fun a b : String × ℚ => b.2 ≤ a.2) ∧
    (∀ q : ℚ, (durations.mergeSort fun a b => decide (b.2 ≤ a.2)).filter
        (fun p => decide (p.2 = q)) = durations.filter fun p => decide (p.2 = q)) ∧
    (longest_tests [("A", 5), ("B", 46/5), ("C", 1)]).take 2
      = [("B", 46/5), ("A", 5)] := by
  refine ⟨?_, fun q => mergeSort_filter_stable durations q, ?_⟩
  · have hs := List.sorted_mergeSort durLe_trans durLe_total durations
    have hs2 : (durations.mergeSort fun a b : String × ℚ => decide (b.2 ≤ a.2)).Pairwise
        (fun a b : String × ℚ => b.2 ≤ a.2) :=
      hs.imp fun {a b} h => by simpa using h
    exact hs2.sublist (List.take_sublist _ _)
  · norm_num [longest_tests, List.mergeSort, List.merge]

lemma length_flatMap_pair (F G : (String × ℚ) → TimelineRecord) :
    ∀ l : List (String × ℚ), (l.flatMap fun p => [F p, G p]).length = 2 * l.length
  | [] => rfl
  | x :: xs => by
    rw [List.flatMap_cons, List.length_append, length_flatMap_pair F G xs]
    simp
    omega

lemma countP_flatMap_pair (F G : (String × ℚ) → TimelineRecord)
    (pred : TimelineRecord → Bool) :
    ∀ l : List (String × ℚ),
      ((l.flatMap fun p => [F p, G p]).countP pred)
        = l.countP (fun p => pred (F p)) + l.countP fun p => pred (G p)
  | [] => by simp
  | x :: xs => by
    rw [List.flatMap_cons, List.countP_append, countP_flatMap_pair F G pred xs,
      List.countP_cons, List.countP_cons]
    by_cases h1 : pred (F x) <;> by_cases h2 : pred (G x) <;>
      simp [List.countP_cons, h1, h2] <;> omega

lemma countP_key_eq_one :
    ∀ (l : List (String × ℚ)) (name : String),
      (l.map Prod.fst).Nodup → name ∈ l.map Prod.fst →
      (l.countP fun p => decide (p.1 = name)) = 1
  | [], _ => by simp
  | x :: xs, name => by
    intro hnd hmem
    rw [List.map_cons, List.nodup_cons] at hnd
    rw [List.map_cons] at hmem
    rw [List.countP_cons]
    rcases List.mem_cons.mp hmem with heq | hmem2
    · subst heq
      have h0 : (xs.countP fun p => decide (p.1 = x.1)) = 0 := by
        rw [List.countP_eq_zero]
        intro p hp
        simp only [decide_eq_true_eq]
        intro hc
        exact hnd.1 (hc ▸ List.mem_map_of_mem Prod.fst hp)
      simp [h0]
    · have hne : ¬ (x.1 = name) := fun hc => hnd.1 (hc ▸ hmem2)
      rw [countP_key_eq_one xs name hnd.2 hmem2]
      simp [hne]

/-- C10 (confirmed): for distinct test names, the timeline has exactly two
records per test of `starts` — one `"start"` record and one `"end"` record —
so its total length is `2 × |starts|`; the builder is total (never raises)
for every combination of missing `ends`/`durations` entries. -/
theorem c10_two_records_each (starts ends durations : List (String × ℚ))
    (h : (starts.map Prod.fst).Nodup) :
    (build_timeline starts ends durations).length = 2 * starts.length ∧
    ∀ p ∈ starts,
      ((build_timeline starts ends durations).countP
        fun r => decide (r.2.2 = p.1 ∧ r.2.1 = "start")) = 1 ∧
      ((build_timeline starts ends durations).countP
        fun r => decide (r.2.2 = p.1 ∧ r.2.1 = "end")) = 1 := by
  have hperm : List.Perm (build_timeline starts ends durations)
      (starts.flatMap fun p =>
        [(p.2, "start", p.1), (end_of ends durations p.1 p.2, "end", p.1)]) :=
    List.mergeSort_perm _ recLe
  constructor
  · rw [hperm.length_eq]
    exact length_flatMap_pair _ _ starts
  · intro p hp
    have hkey : p.1 ∈ starts.map Prod.fst := List.mem_map_of_mem Prod.fst hp
    constructor
    · rw [hperm.countP_eq, countP_flatMap_pair]
      have hF : (starts.countP fun q =>
          decide (((q.2, "start", q.1) : TimelineRecord).2.2 = p.1
            ∧ ((q.2, "start", q.1) : TimelineRecord).2.1 = "start"))
          = starts.countP fun q => decide (q.1 = p.1) := by
        refine List.countP_congr fun q _ => ?_
        simp
      have hG : (starts.countP fun q =>
          decide (((end_of ends durations q.1 q.2, "end", q.1) : TimelineRecord).2.2 = p.1
            ∧ ((end_of ends durations q.1 q.2, "end", q.1) : TimelineRecord).2.1 = "start"))
          = 0 := by
        rw [List.countP_eq_zero]
        intro q _
        simp
      rw [hF, hG, countP_key_eq_one starts p.1 h hkey]
    · rw [hperm.countP_eq, countP_flatMap_pair]
      have hF : (starts.countP fun q =>
          decide (((q.2, "start", q.1) : TimelineRecord).2.2 = p.1
            ∧ ((q.2, "start", q.1) : TimelineRecord).2.1 = "end"))
          = 0 := by
        rw [List.countP_eq_zero]
        intro q _
        simp
      have hG : (starts.countP fun q =>
          decide (((end_of ends durations q.1 q.2, "end", q.1) : TimelineRecord).2.2 = p.1
            ∧ ((end_of ends durations q.1 q.2, "end", q.1) : TimelineRecord).2.1 = "end"))
          = starts.countP fun q => decide (q.1 = p.1) := by
        refine List.countP_congr fun q _ => ?_
        simp
      rw [hF, hG, countP_key_eq_one starts p.1 h hkey]

/-- Witness for C10 at two tests `A`, `B` with no recorded ends/durations. -/
theorem c10_two_records_each_witness :
    (build_timeline [("A", 0), ("B", 1)] [] []).length = 2 * ([("A", (0 : ℚ)), ("B", 1)]).length ∧
    ∀ p ∈ [("A", (0 : ℚ)), ("B", 1)],
      ((build_timeline [("A", 0), ("B", 1)] [] []).countP
        fun r => decide (r.2.2 = p.1 ∧ r.2.1 = "start")) = 1 ∧
      ((build_timeline [("A", 0), ("B", 1)] [] []).countP
        fun r => decide (r.2.2 = p.1 ∧ r.2.1 = "end")) = 1 :=
  c10_two_records_each [("A", 0), ("B", 1)] [] [] (by simp)

/-- C5 counterexample: at the nonempty series `[1]` with `maxWidth = 0` the
claimed output of length `min(1, 0) = 0` is not returned; `max([])` raises
(modelled by `none`). -/
theorem c5_counterexample :
    downsample_to_width [1] 10 0 = none ∧ downsample_to_width [1] 10 0 ≠ some [] := by
  have h : downsample_to_width [1] 10 0 = none := by
    norm_num [downsample_to_width, select_data, pylinspace_int, rescale, List.max?]
  exact ⟨h, by rw [h]; exact fun hc => Option.noConfusion hc⟩
